import Mathlib

/-!
Formal model of `signal_status_publisher.py` (atd-kits).

The script is a linear batch-reconciliation pipeline: it reads traffic-signal
statuses from the KITS database, compares them with the set already published
on the open-data portal, and submits one batched write containing all current
records as upserts followed by deletion markers for stale published records.

Records are modelled as Python dicts: association lists of string keys and
dynamically typed values, in insertion order.  A raised Python exception
(KeyError, AttributeError, TypeError, ...) is modelled by Option none: the
script installs no exception handler, so every raise propagates to the top.
-/

namespace SignalStatusPublisher

/-- Naive wall-clock timestamp as delivered by the KITS MSSQL driver. -/
structure DateTime where
  year : Nat
  month : Nat
  day : Nat
  hour : Nat
  minute : Nat
  second : Nat
deriving DecidableEq, Repr

/-- Dynamically typed Python value as it occurs in this pipeline: strings,
ints, MSSQL decimals (units and decimal scale, value = units / 10 ^ scale),
booleans, None, nested dicts (such as the socrata location column) and naive
datetimes. -/
inductive Value where
  | vstr : String → Value
  | vint : Int → Value
  | vdec : Int → Nat → Value
  | vbool : Bool → Value
  | vnone : Value
  | vobj : List (String × Value) → Value
  | vdt : DateTime → Value
deriving Repr

/-- A Python dict: keys in insertion order, each key unique in practice. -/
abbrev Record := List (String × Value)

/-- Lookup of the first entry with the given key: dict subscription and
dict.get both read this entry; subscription raises when it is none. -/
def getVal : Record → String → Option Value
  | [], _ => none
  | p :: r, k => if p.1 = k then some p.2 else getVal r k

/-- Test whether the dict has an entry with the given key. -/
def hasKey : Record → String → Bool
  | [], _ => false
  | p :: r, k => decide (p.1 = k) || hasKey r k

/-- Replace the value of every entry carrying the given key. -/
def setEvery : Record → String → Value → Record
  | [], _, _ => []
  | p :: r, k, v => (if p.1 = k then (k, v) else p) :: setEvery r k v

/-- Python dict assignment d[k] = v: overwrite in place when the key exists,
append a new entry otherwise (insertion order is preserved). -/
def setVal (r : Record) (k : String) (v : Value) : Record :=
  if hasKey r k then setEvery r k v else r ++ [(k, v)]

/-- Map a fallible (exception-throwing) body over a list, as a Python for
loop over the record collection: the first raise aborts the whole run. -/
def omap {α β : Type} (f : α → Option β) : List α → Option (List β)
  | [] => some []
  | a :: l =>
    match f a, omap f l with
    | some b, some bs => some (b :: bs)
    | _, _ => none

/-- Filter with a fallible predicate, as a Python list comprehension whose
condition may raise. -/
def ofilter {α : Type} (f : α → Option Bool) : List α → Option (List α)
  | [] => some []
  | a :: l =>
    match f a, ofilter f l with
    | some true, some r => some (a :: r)
    | some false, some r => some r
    | _, _ => none

/-- Rendering of a Python Decimal with the given units and scale, matching
str(): digits with the decimal point placed scale digits from the right,
zero padded (str(Decimal(value=20, scale=1)) = "2.0"). -/
def decToString (u : Int) (s : Nat) : String :=
  if s = 0 then toString u
  else
    let sign := if u < 0 then "-" else ""
    let ds := (toString u.natAbs).toList
    let ds := if ds.length ≤ s then List.replicate (s + 1 - ds.length) '0' ++ ds else ds
    let k := ds.length - s
    sign ++ String.mk (ds.take k) ++ "." ++ String.mk (ds.drop k)

/-- Left pad a number with zeros to the given width (the arrow format tokens
YYYY, MM, DD, HH, mm, ss). -/
def pad (w : Nat) (n : Nat) : String :=
  let s := toString n
  if s.length < w then String.mk (List.replicate (w - s.length) '0') ++ s else s

/-- The arrow format string "YYYY-MM-DDTHH:mm:ss" applied to a wall-clock
timestamp: no zone designator, second precision. -/
def fmtDT (d : DateTime) : String :=
  pad 4 d.year ++ "-" ++ pad 2 d.month ++ "-" ++ pad 2 d.day ++ "T" ++
    pad 2 d.hour ++ ":" ++ pad 2 d.minute ++ ":" ++ pad 2 d.second

/-- Python str() on the scalar values this pipeline passes to str and to
f-strings (signal ids and coordinate components; a dict or datetime never
reaches a str call in the script, those branches are fixed renderings). -/
def pyStr : Value → String
  | Value.vstr s => s
  | Value.vint n => toString n
  | Value.vdec u s => decToString u s
  | Value.vbool b => if b then "True" else "False"
  | Value.vnone => "None"
  | Value.vobj _ => "\x7b...\x7d"
  | Value.vdt d => pad 4 d.year ++ "-" ++ pad 2 d.month ++ "-" ++ pad 2 d.day ++ " " ++
      pad 2 d.hour ++ ":" ++ pad 2 d.minute ++ ":" ++ pad 2 d.second

/-- Numeric view of a value: Python compares int, Decimal and bool by
numeric value across types.  Result is (units, scale). -/
def numVal : Value → Option (Int × Nat)
  | Value.vint n => some (n, 0)
  | Value.vdec u s => some (u, s)
  | Value.vbool b => some (if b then 1 else 0, 0)
  | _ => none

mutual

/-- Python == on the values this pipeline compares: numeric types compare by
value across int, Decimal and bool; strings, None, datetimes and dicts
compare componentwise; values of different non-numeric kinds are unequal.
(The ids the script compares are always scalars.) -/
def pyEq : Value → Value → Bool
  | a, b =>
    match numVal a, numVal b with
    | some (u, s), some (u', s') => u * ((10 : Int) ^ s') == u' * ((10 : Int) ^ s)
    | _, _ =>
      match a, b with
      | Value.vstr x, Value.vstr y => x == y
      | Value.vnone, Value.vnone => true
      | Value.vdt x, Value.vdt y => x == y
      | Value.vobj x, Value.vobj y => pyEqFields x y
      | _, _ => false

/-- Entrywise comparison of dict contents for pyEq. -/
def pyEqFields : List (String × Value) → List (String × Value) → Bool
  | [], [] => true
  | (k, v) :: t, (k', v') :: t' => k == k' && pyEq v v' && pyEqFields t t'
  | _, _ => false

end

/-- Python truthiness: empty strings, zero numbers, False, None and empty
dicts are falsy. -/
def truthy : Value → Bool
  | Value.vstr s => !s.isEmpty
  | Value.vint n => n != 0
  | Value.vdec u _ => u != 0
  | Value.vbool b => b
  | Value.vnone => false
  | Value.vobj l => !l.isEmpty
  | Value.vdt _ => true

/-- Python int() on the values the pipeline coerces: ints unchanged,
Decimals truncated toward zero, bools to 0 or 1, strings parsed as integer
literals; None, dicts and datetimes raise TypeError. -/
def pyInt : Value → Option Int
  | Value.vint n => some n
  | Value.vdec u s => some (Int.tdiv u ((10 ^ s : Nat) : Int))
  | Value.vbool b => some (if b then 1 else 0)
  | Value.vstr s => s.toInt?
  | _ => none

/-- Body of the stringify_signal_ids loop on one record: sig[key] = str(sig[key]).
Raises KeyError when the key is absent. -/
def stringifyOne (key : String) (sig : Record) : Option Record :=
  (getVal sig key).map (fun v => setVal sig key (Value.vstr (pyStr v)))

/-- Pass 1, stringify_signal_ids: convert the signal_id of every record to
its string representation. -/
def stringify_signal_ids (kits_sig_status : List Record) (key : String) :
    Option (List Record) :=
  omap (stringifyOne key) kits_sig_status

/-- Deletion marker appended by identify_deletes for a stale published id. -/
def mkDelete (id : Value) : Record :=
  [("signal_id", id), (":deleted", Value.vbool true)]

/-- The reconciler identify_deletes: one deletion marker for every published
record whose signal_id does not occur among the source ids, in published
iteration order.  Each id extraction is a subscription and may raise. -/
def identify_deletes (kits_sig_status socrata_sig_status : List Record) :
    Option (List Record) :=
  match omap (fun s => getVal s "signal_id") kits_sig_status,
      omap (fun s => getVal s "signal_id") socrata_sig_status with
  | some kits_ids, some socrata_ids =>
      some ((socrata_ids.filter
          (fun id => !(kits_ids.any (fun k => pyEq id k)))).map mkDelete)
  | _, _ => none

/-- The fixed set of descriptive fields copied from the asset dataset. -/
def asset_fields : List String := ["location", "location_name", "primary_st", "cross_st"]

/-- The list comprehension in merge_signal_asset_data: assets whose
signal_id equals the source record's signal_id; each comparison subscripts
both dicts and may raise. -/
def matchAssets (signal_asset_data : List Record) (kits_signal : Record) :
    Option (List Record) :=
  ofilter (fun a =>
    match getVal a "signal_id", getVal kits_signal "signal_id" with
    | some av, some kv => some (pyEq av kv)
    | _, _ => none) signal_asset_data

/-- Body of the merge_signal_asset_data loop on one source record: no match
leaves the record alone, otherwise the first match's four asset fields are
copied via dict.update, absent ones as None (dict.get default). -/
def mergeOne (signal_asset_data : List Record) (kits_signal : Record) :
    Option Record :=
  match matchAssets signal_asset_data kits_signal with
  | none => none
  | some [] => some kits_signal
  | some (matched_signal :: _) =>
      some (asset_fields.foldl
        (fun r key => setVal r key ((getVal matched_signal key).getD Value.vnone))
        kits_signal)

/-- Pass 2, merge_signal_asset_data: copy descriptive asset data onto every
source record that has a matching asset record. -/
def merge_signal_asset_data (kits_sig_status signal_asset_data : List Record) :
    Option (List Record) :=
  omap (mergeOne signal_asset_data) kits_sig_status

/-- Body of the localize_operation_state_datetime loop: arrow.get on the
driver's datetime value, replace(tzinfo=tz) which keeps the wall clock, then
format without zone info.  The KITS driver delivers datetime objects; other
value types are outside the modelled domain of arrow.get. -/
def localizeOne (key : String) (signal : Record) : Option Record :=
  match getVal signal key with
  | some (Value.vdt d) => some (setVal signal key (Value.vstr (fmtDT d)))
  | _ => none

/-- Pass 3, localize_operation_state_datetime: reformat the event timestamp
of every record to the zone-free second-precision string. -/
def localize_operation_state_datetime (kits_sig_status : List Record)
    (key : String) : Option (List Record) :=
  omap (localizeOne key) kits_sig_status

/-- Pass 4, set_processed_datetime: stamp every record with the current
wall-clock time, formatted like the event timestamp.  The clock reading is a
run input here. -/
def set_processed_datetime (kits_sig_status : List Record) (now : DateTime) :
    List Record :=
  kits_sig_status.map
    (fun signal => setVal signal "processed_datetime" (Value.vstr (fmtDT now)))

/-- Body of the convert_decimals loop on one record:
signal[key] = int(signal[key]) for each key in order; a missing key raises
KeyError and a non-numeric value raises TypeError or ValueError. -/
def convertOne (keys : List String) (signal : Record) : Option Record :=
  match keys with
  | [] => some signal
  | key :: rest =>
    (getVal signal key).bind fun v =>
    (pyInt v).bind fun n =>
    convertOne rest (setVal signal key (Value.vint n))

/-- Pass 5, convert_decimals: force the listed fields of every record to
integer type. -/
def convert_decimals (kits_sig_status : List Record) (keys : List String) :
    Option (List Record) :=
  omap (convertOne keys) kits_sig_status

/-- Body of the format_locations loop on one record:
signal.get("location", dict()).get("latitude") and the same for longitude;
when both are truthy the location is replaced by the f-string "(lon, lat)".
A present location that is not a dict makes the second .get raise
AttributeError. -/
def formatOne (signal : Record) : Option Record :=
  match getVal signal "location" with
  | none => some signal
  | some (Value.vobj loc) =>
      let lat := (getVal loc "latitude").getD Value.vnone
      let lon := (getVal loc "longitude").getD Value.vnone
      if truthy lat && truthy lon then
        some (setVal signal "location"
          (Value.vstr ("(" ++ pyStr lon ++ ", " ++ pyStr lat ++ ")")))
      else some signal
  | some _ => none

/-- Pass 6, format_locations: replace structured coordinate pairs by the
formatted "(lon, lat)" string. -/
def format_locations (kits_sig_status : List Record) : Option (List Record) :=
  omap formatOne kits_sig_status

/-- Results of the three external reads main performs, plus the clock: none
models a raised ConnectionError, QueryError or HTTPError on that read. -/
structure RunInputs where
  kitsFetch : Option (List Record)
  statusFetch : Option (List Record)
  assetsFetch : Option (List Record)
  now : DateTime

/-- The pure core of main: the payload submitted to client.upsert, or none
when any earlier step raised (no step of main installs an exception handler,
so every failure reaches the top before the write).  Steps are in the exact
order of main: source fetch, stringify, published fetch, identify_deletes,
asset fetch, merge, localize, stamp, coerce, format, then the single batched
payload kits_sig_status + delete_signals. -/
def main_write (inp : RunInputs) : Option (List Record) :=
  inp.kitsFetch.bind fun kits_sig_status =>
  (stringify_signal_ids kits_sig_status "signal_id").bind fun kits1 =>
  inp.statusFetch.bind fun socrata_sig_status =>
  (identify_deletes kits1 socrata_sig_status).bind fun delete_signals =>
  inp.assetsFetch.bind fun signal_asset_data =>
  (merge_signal_asset_data kits1 signal_asset_data).bind fun kits2 =>
  (localize_operation_state_datetime kits2 "operation_state_datetime").bind fun kits3 =>
  (convert_decimals (set_processed_datetime kits3 inp.now)
    ["operation_state", "plan_id"]).bind fun kits5 =>
  (format_locations kits5).bind fun kits6 =>
  some (kits6 ++ delete_signals)

/-- Match test of merge_signal_asset_data between an asset record and a
source record: both signal ids present and Python-equal. -/
def matchesB (a kits_signal : Record) : Bool :=
  match getVal a "signal_id", getVal kits_signal "signal_id" with
  | some av, some kv => pyEq av kv
  | _, _ => false

/-- Projection of a value that is a Python str. -/
def asStr : Value → Option String
  | Value.vstr s => some s
  | _ => none

/-!  The end-to-end example of the spec and claims C2 and C8. -/

/-- Two source rows (ids 101 and 102, flash statuses), as the KITS query
returns them: event time, status, plan, id. -/
def exampleKits : List Record :=
  [[("operation_state_datetime", Value.vdt ⟨2024, 1, 15, 8, 30, 0⟩),
    ("operation_state", Value.vdec 10 1), ("plan_id", Value.vdec 30 1),
    ("signal_id", Value.vint 101)],
   [("operation_state_datetime", Value.vdt ⟨2024, 1, 15, 7, 0, 0⟩),
    ("operation_state", Value.vdec 20 1), ("plan_id", Value.vint 0),
    ("signal_id", Value.vint 102)]]

/-- The published set: ids 101 and 103. -/
def exampleSocrata : List Record :=
  [[("signal_id", Value.vstr "101")], [("signal_id", Value.vstr "103")]]

/-- Clock reading of the example run. -/
def exampleNow : DateTime := ⟨2024, 1, 15, 8, 35, 0⟩

/-- The example run: all three reads succeed, the asset registry is empty. -/
def inpExample : RunInputs :=
  ⟨some exampleKits, some exampleSocrata, some [], exampleNow⟩

/-- The payload the example run submits: the two normalized source records
followed by the single deletion marker for id 103. -/
def examplePayload : List Record :=
  [[("operation_state_datetime", Value.vstr "2024-01-15T08:30:00"),
    ("operation_state", Value.vint 1), ("plan_id", Value.vint 3),
    ("signal_id", Value.vstr "101"),
    ("processed_datetime", Value.vstr "2024-01-15T08:35:00")],
   [("operation_state_datetime", Value.vstr "2024-01-15T07:00:00"),
    ("operation_state", Value.vint 2), ("plan_id", Value.vint 0),
    ("signal_id", Value.vstr "102"),
    ("processed_datetime", Value.vstr "2024-01-15T08:35:00")],
   [("signal_id", Value.vstr "103"), (":deleted", Value.vbool true)]]

/-!  Record (dict) lemmas. -/

theorem getVal_cons (pk : String) (pv : Value) (t : Record) (k : String) :
    getVal ((pk, pv) :: t) k = if pk = k then some pv else getVal t k := rfl

theorem hasKey_cons (pk : String) (pv : Value) (t : Record) (k : String) :
    hasKey ((pk, pv) :: t) k = (decide (pk = k) || hasKey t k) := rfl

theorem setEvery_cons (pk : String) (pv : Value) (t : Record) (k : String) (v : Value) :
    setEvery ((pk, pv) :: t) k v =
      (if pk = k then (k, v) else (pk, pv)) :: setEvery t k v := rfl

theorem getVal_eq_none_of_hasKey_false {r : Record} {k : String}
    (h : hasKey r k = false) : getVal r k = none := by
  induction r with
  | nil => rfl
  | cons p t ih =>
    obtain ⟨pk, pv⟩ := p
    rw [hasKey_cons, Bool.or_eq_false_iff, decide_eq_false_iff_not] at h
    rw [getVal_cons, if_neg h.1]
    exact ih h.2

theorem getVal_append (r r' : Record) (k : String) :
    getVal (r ++ r') k = ((getVal r k).rec (getVal r' k) (fun v => some v)) := by
  induction r with
  | nil => rfl
  | cons p t ih =>
    obtain ⟨pk, pv⟩ := p
    by_cases h : pk = k
    · rw [List.cons_append, getVal_cons, getVal_cons, if_pos h, if_pos h]
    · rw [List.cons_append, getVal_cons, getVal_cons, if_neg h, if_neg h]
      exact ih

theorem hasKey_append (r r' : Record) (k : String) :
    hasKey (r ++ r') k = (hasKey r k || hasKey r' k) := by
  induction r with
  | nil => rfl
  | cons p t ih =>
    obtain ⟨pk, pv⟩ := p
    rw [List.cons_append, hasKey_cons, hasKey_cons, ih, Bool.or_assoc]

theorem getVal_setEvery_self {r : Record} {k : String} (v : Value)
    (h : hasKey r k = true) : getVal (setEvery r k v) k = some v := by
  induction r with
  | nil => exact absurd h (by simp [hasKey])
  | cons p t ih =>
    obtain ⟨pk, pv⟩ := p
    by_cases hp : pk = k
    · rw [setEvery_cons, if_pos hp, getVal_cons, if_pos rfl]
    · rw [hasKey_cons, Bool.or_eq_true, decide_eq_true_eq] at h
      rcases h with h | h
      · exact absurd h hp
      · rw [setEvery_cons, if_neg hp, getVal_cons, if_neg hp]
        exact ih h

theorem getVal_setEvery_ne {r : Record} {k k' : String} (v : Value)
    (h : k' ≠ k) : getVal (setEvery r k v) k' = getVal r k' := by
  induction r with
  | nil => rfl
  | cons p t ih =>
    obtain ⟨pk, pv⟩ := p
    by_cases hp : pk = k
    · rw [setEvery_cons, if_pos hp, getVal_cons, getVal_cons,
        if_neg (fun hh : k = k' => h hh.symm), if_neg (fun hh : pk = k' => h (hh ▸ hp)), ih]
    · rw [setEvery_cons, if_neg hp, getVal_cons, getVal_cons, ih]

theorem hasKey_setEvery (r : Record) (k k'' : String) (v : Value) :
    hasKey (setEvery r k v) k'' = hasKey r k'' := by
  induction r with
  | nil => rfl
  | cons p t ih =>
    obtain ⟨pk, pv⟩ := p
    by_cases hp : pk = k
    · rw [setEvery_cons, if_pos hp, hasKey_cons, hasKey_cons, ih, hp]
    · rw [setEvery_cons, if_neg hp, hasKey_cons, hasKey_cons, ih]

theorem setEvery_of_hasKey_false {r : Record} {k : String} (v : Value)
    (h : hasKey r k = false) : setEvery r k v = r := by
  induction r with
  | nil => rfl
  | cons p t ih =>
    obtain ⟨pk, pv⟩ := p
    rw [hasKey_cons, Bool.or_eq_false_iff, decide_eq_false_iff_not] at h
    rw [setEvery_cons, if_neg h.1, ih h.2]

theorem setEvery_setEvery_self (r : Record) (k : String) (v v' : Value) :
    setEvery (setEvery r k v) k v' = setEvery r k v' := by
  induction r with
  | nil => rfl
  | cons p t ih =>
    obtain ⟨pk, pv⟩ := p
    by_cases hp : pk = k
    · rw [setEvery_cons, if_pos hp, setEvery_cons, if_pos rfl, setEvery_cons, if_pos hp, ih]
    · rw [setEvery_cons, if_neg hp, setEvery_cons, if_neg hp, setEvery_cons, if_neg hp, ih]

theorem setEvery_comm {k k' : String} (r : Record) (v v' : Value)
    (h : k ≠ k') : setEvery (setEvery r k v) k' v' = setEvery (setEvery r k' v') k v := by
  induction r with
  | nil => rfl
  | cons p t ih =>
    obtain ⟨pk, pv⟩ := p
    by_cases hp : pk = k
    · rw [setEvery_cons, if_pos hp, setEvery_cons, if_neg h, setEvery_cons,
        if_neg (hp ▸ h : ¬ pk = k'), setEvery_cons, if_pos hp, ih]
    · by_cases hp' : pk = k'
      · rw [setEvery_cons, if_neg hp, setEvery_cons, if_pos hp', setEvery_cons, if_pos hp',
          setEvery_cons, if_neg (fun hh : k' = k => h hh.symm), ih]
      · rw [setEvery_cons, if_neg hp, setEvery_cons, if_neg hp', setEvery_cons, if_neg hp',
          setEvery_cons, if_neg hp, ih]

theorem setEvery_append (r r' : Record) (k : String) (v : Value) :
    setEvery (r ++ r') k v = setEvery r k v ++ setEvery r' k v := by
  induction r with
  | nil => rfl
  | cons p t ih =>
    obtain ⟨pk, pv⟩ := p
    rw [List.cons_append, setEvery_cons, setEvery_cons, ih, List.cons_append]

theorem setVal_eq_setEvery {r : Record} {k : String} (v : Value)
    (h : hasKey r k = true) : setVal r k v = setEvery r k v := by
  unfold setVal
  rw [if_pos h]

theorem setVal_eq_append {r : Record} {k : String} (v : Value)
    (h : hasKey r k = false) : setVal r k v = r ++ [(k, v)] := by
  unfold setVal
  rw [if_neg (by rw [h]; exact Bool.false_ne_true)]

theorem hasKey_singleton_self (k : String) (v : Value) :
    hasKey [(k, v)] k = true := by
  rw [hasKey_cons]
  simp

theorem hasKey_setVal_self (r : Record) (k : String) (v : Value) :
    hasKey (setVal r k v) k = true := by
  cases h : hasKey r k
  · rw [setVal_eq_append v h, hasKey_append, h, hasKey_singleton_self]
    rfl
  · rw [setVal_eq_setEvery v h, hasKey_setEvery, h]

theorem hasKey_setVal (r : Record) (k k'' : String) (v : Value)
    (h : hasKey r k'' = true) : hasKey (setVal r k v) k'' = true := by
  cases hk : hasKey r k
  · rw [setVal_eq_append v hk, hasKey_append, h]
    rfl
  · rw [setVal_eq_setEvery v hk, hasKey_setEvery]
    exact h

theorem getVal_setVal_self (r : Record) (k : String) (v : Value) :
    getVal (setVal r k v) k = some v := by
  cases h : hasKey r k
  · rw [setVal_eq_append v h, getVal_append, getVal_eq_none_of_hasKey_false h]
    rw [getVal_cons, if_pos rfl]
  · rw [setVal_eq_setEvery v h]
    exact getVal_setEvery_self v h

theorem getVal_setVal_ne (r : Record) {k k' : String} (v : Value)
    (h : k' ≠ k) : getVal (setVal r k v) k' = getVal r k' := by
  cases hk : hasKey r k
  · rw [setVal_eq_append v hk, getVal_append]
    have h1 : getVal [(k, v)] k' = none := by
      rw [getVal_cons, if_neg (fun hh : k = k' => h hh.symm)]
      rfl
    rw [h1]
    cases getVal r k' <;> rfl
  · rw [setVal_eq_setEvery v hk]
    exact getVal_setEvery_ne v h

theorem setVal_setVal_self (r : Record) (k : String) (v v' : Value) :
    setVal (setVal r k v) k v' = setVal r k v' := by
  cases h : hasKey r k
  · rw [setVal_eq_append v h,
      setVal_eq_setEvery v' (by rw [hasKey_append, h, hasKey_singleton_self]; rfl),
      setEvery_append, setEvery_of_hasKey_false _ h, setVal_eq_append v' h]
    rw [setEvery_cons, if_pos rfl]
    rfl
  · rw [setVal_eq_setEvery v h,
      setVal_eq_setEvery v' (by rw [hasKey_setEvery]; exact h),
      setEvery_setEvery_self, setVal_eq_setEvery v' h]

theorem setVal_comm_of_hasKey {r : Record} {k k' : String} (v v' : Value)
    (hne : k ≠ k') (hk : hasKey r k = true) :
    setVal (setVal r k v) k' v' = setVal (setVal r k' v') k v := by
  cases h' : hasKey r k'
  · have h5 : setEvery ([(k', v')] : Record) k v = [(k', v')] := by
      apply setEvery_of_hasKey_false
      rw [hasKey_cons]
      simp only [hasKey, Bool.or_false, decide_eq_false_iff_not]
      exact fun hh => hne hh.symm
    rw [setVal_eq_setEvery v hk,
      setVal_eq_append v' (by rw [hasKey_setEvery]; exact h'),
      setVal_eq_append v' h',
      setVal_eq_setEvery v (by rw [hasKey_append, hk]; rfl),
      setEvery_append, h5]
  · rw [setVal_eq_setEvery v hk, setVal_eq_setEvery v' h',
      setVal_eq_setEvery v' (by rw [hasKey_setEvery]; exact h'),
      setVal_eq_setEvery v (by rw [hasKey_setEvery]; exact hk),
      setEvery_comm _ _ _ hne]

theorem getVal_foldl_setVal_notMem (keys : List String) (g : String → Value)
    (r : Record) {k : String} (h : k ∉ keys) :
    getVal (keys.foldl (fun acc key => setVal acc key (g key)) r) k = getVal r k := by
  induction keys generalizing r with
  | nil => rfl
  | cons a t ih =>
    simp only [List.mem_cons, not_or] at h
    simp only [List.foldl_cons]
    rw [ih _ h.2, getVal_setVal_ne _ _ h.1]

/-!  Lemmas about the fallible loop combinators. -/

theorem omap_forall₂ {α β : Type} {f : α → Option β} :
    ∀ {l : List α} {l' : List β}, omap f l = some l' →
      List.Forall₂ (fun a b => f a = some b) l l'
  | [], l', h => by
    simp only [omap, Option.some.injEq] at h
    exact h ▸ List.Forall₂.nil
  | a :: t, l', h => by
    simp only [omap] at h
    cases hfa : f a with
    | none => rw [hfa] at h; exact absurd h (by simp)
    | some b =>
      rw [hfa] at h
      cases hrest : omap f t with
      | none => rw [hrest] at h; exact absurd h (by simp)
      | some bs =>
        rw [hrest] at h
        simp only [Option.some.injEq] at h
        exact h ▸ List.Forall₂.cons hfa (omap_forall₂ hrest)

theorem omap_length {α β : Type} {f : α → Option β} {l : List α} {l' : List β}
    (h : omap f l = some l') : l'.length = l.length :=
  (omap_forall₂ h).length_eq.symm

theorem omap_eq_some_of_forall {α β : Type} {f : α → Option β} :
    ∀ {l : List α} {l' : List β},
      List.Forall₂ (fun a b => f a = some b) l l' → omap f l = some l'
  | [], [], _ => rfl
  | _ :: _, _ :: _, List.Forall₂.cons hab hrest => by
    simp only [omap, hab, omap_eq_some_of_forall hrest]

theorem omap_fix {α : Type} {f : α → Option α} {l : List α}
    (h : ∀ a ∈ l, f a = some a) : omap f l = some l := by
  induction l with
  | nil => rfl
  | cons a t ih =>
    simp only [omap, h a (List.mem_cons_self a t), ih (fun b hb => h b (List.mem_cons_of_mem a hb))]

theorem omap_fix_or_none {α : Type} {f : α → Option α} {l : List α}
    (h : ∀ a ∈ l, f a = some a ∨ f a = none) :
    omap f l = some l ∨ omap f l = none := by
  induction l with
  | nil => exact Or.inl rfl
  | cons a t ih =>
    rcases h a (List.mem_cons_self a t) with ha | ha
    · rcases ih (fun b hb => h b (List.mem_cons_of_mem a hb)) with ht | ht
      · exact Or.inl (by simp only [omap, ha, ht])
      · exact Or.inr (by simp only [omap, ha, ht])
    · exact Or.inr (by simp only [omap, ha])

theorem ofilter_eq_filter {α : Type} {f : α → Option Bool} :
    ∀ {l : List α} {l' : List α}, ofilter f l = some l' →
      (∀ a ∈ l, (f a).isSome) ∧ l' = l.filter (fun a => (f a).getD false)
  | [], l', h => by
    simp only [ofilter, Option.some.injEq] at h
    exact ⟨by simp, h.symm⟩
  | a :: t, l', h => by
    simp only [ofilter] at h
    cases hfa : f a with
    | none => rw [hfa] at h; exact absurd h (by simp)
    | some b =>
      rw [hfa] at h
      cases hrest : ofilter f t with
      | none => rw [hrest] at h; cases b <;> exact absurd h (by simp)
      | some r =>
        rw [hrest] at h
        have ih := ofilter_eq_filter hrest
        have hmem : ∀ x ∈ a :: t, (f x).isSome := by
          intro x hx
          rcases List.mem_cons.mp hx with rfl | hx
          · rw [hfa]
            rfl
          · exact ih.1 x hx
        cases b with
        | true =>
          simp only [Option.some.injEq] at h
          refine ⟨hmem, ?_⟩
          rw [← h]
          simp [List.filter_cons, hfa, ih.2]
        | false =>
          simp only [Option.some.injEq] at h
          refine ⟨hmem, ?_⟩
          rw [← h]
          simp [List.filter_cons, hfa, ih.2]

/-!  Value-level helper lemmas. -/

theorem pyEq_vstr (a b : String) : pyEq (Value.vstr a) (Value.vstr b) = (a == b) := by
  rw [pyEq]
  rfl

theorem beq_eq_decide_str (a b : String) : (a == b) = decide (a = b) := by
  by_cases h : a = b <;> simp [h]

theorem any_beq_eq (id : String) (kids : List String) :
    kids.any (fun k => id == k) = decide (id ∈ kids) := by
  induction kids with
  | nil => simp
  | cons a t ih =>
    rw [List.any_cons, ih, beq_eq_decide_str]
    by_cases h1 : id = a <;> by_cases h2 : id ∈ t <;> simp [h1, h2, List.mem_cons]

theorem any_map_pyEq (id : String) (kids : List String) :
    ((kids.map Value.vstr).any fun kk => pyEq (Value.vstr id) kk) = decide (id ∈ kids) := by
  induction kids with
  | nil => simp
  | cons a t ih =>
    simp only [List.map_cons, List.any_cons, ih, pyEq_vstr, beq_eq_decide_str]
    by_cases h1 : id = a <;> by_cases h2 : id ∈ t <;> simp [h1, h2, List.mem_cons]

theorem omap_bind_asStr {k : String} :
    ∀ {l : List Record} {ss : List String},
      omap (fun r => (getVal r k).bind asStr) l = some ss →
      omap (fun r => getVal r k) l = some (ss.map Value.vstr)
  | [], ss, h => by
    simp only [omap, Option.some.injEq] at h
    rw [← h]
    rfl
  | a :: t, ss, h => by
    simp only [omap] at h ⊢
    cases hfa : (getVal a k).bind asStr with
    | none => rw [hfa] at h; exact absurd h (by simp)
    | some s =>
      rw [hfa] at h
      cases hrest : omap (fun r => (getVal r k).bind asStr) t with
      | none => rw [hrest] at h; exact absurd h (by simp)
      | some ss' =>
        rw [hrest] at h
        simp only [Option.some.injEq] at h
        obtain ⟨v, hv, hvs⟩ := Option.bind_eq_some.mp hfa
        have hveq : v = Value.vstr s := by
          cases v <;> simp [asStr] at hvs
          rw [hvs]
        rw [hv, hveq, omap_bind_asStr hrest, ← h]
        rfl

/-!  Claim C1: the reconciler. -/

/-- C1.  When every source record carries a string signal_id (they have just
been stringified) and every published record carries a string signal_id (the
published dataset's key type), identify_deletes returns exactly one marker
(signal_id, :deleted true) for each published record, in published order,
whose id (by string equality) equals no source id; and every marker id is
outside the set of source ids, so deletions and upserts are disjoint. -/
theorem identify_deletes_matches_spec
    {kits socrata : List Record} {kids sids : List String}
    (hk : omap (fun r => (getVal r "signal_id").bind asStr) kits = some kids)
    (hs : omap (fun r => (getVal r "signal_id").bind asStr) socrata = some sids) :
    identify_deletes kits socrata =
      some ((sids.filter (fun id => decide (id ∉ kids))).map
        (fun id => mkDelete (Value.vstr id))) ∧
    ∀ id ∈ sids.filter (fun id => decide (id ∉ kids)), id ∉ kids := by
  have hk' := omap_bind_asStr hk
  have hs' := omap_bind_asStr hs
  constructor
  · unfold identify_deletes
    rw [hk', hs']
    simp only [Option.some.injEq]
    rw [List.filter_map, List.map_map]
    have hpred : ∀ id : String,
        ((fun v => !(List.any (kids.map Value.vstr) fun kk => pyEq v kk)) ∘ Value.vstr) id =
          (fun id => decide (id ∉ kids)) id := by
      intro id
      simp only [Function.comp_apply, any_map_pyEq]
      simp
    rw [List.filter_congr (fun id _ => hpred id)]
    rfl
  · intro id hid
    simp only [List.mem_filter, decide_eq_true_eq] at hid
    exact hid.2

/-- Witness for C1 on the spec's end-to-end ids: sources 101 and 102,
published 101 and 103; the single marker deletes 103 and 103 is not a
source id. -/
theorem identify_deletes_matches_spec_witness :
    identify_deletes [[("signal_id", Value.vstr "101")], [("signal_id", Value.vstr "102")]]
        [[("signal_id", Value.vstr "101")], [("signal_id", Value.vstr "103")]] =
      some ((["101", "103"].filter (fun id => decide (id ∉ ["101", "102"]))).map
        (fun id => mkDelete (Value.vstr id))) ∧
    ∀ id ∈ ["101", "103"].filter (fun id => decide (id ∉ ["101", "102"])),
      id ∉ ["101", "102"] :=
  identify_deletes_matches_spec rfl rfl

/-!  Inversion of a successful run. -/

theorem main_write_eq_some_inv {inp : RunInputs} {p : List Record}
    (hp : main_write inp = some p) :
    ∃ kits socrata assets kits1 dels kits2 kits3 kits5 kits6,
      inp.kitsFetch = some kits ∧ inp.statusFetch = some socrata ∧
      inp.assetsFetch = some assets ∧
      stringify_signal_ids kits "signal_id" = some kits1 ∧
      identify_deletes kits1 socrata = some dels ∧
      merge_signal_asset_data kits1 assets = some kits2 ∧
      localize_operation_state_datetime kits2 "operation_state_datetime" = some kits3 ∧
      convert_decimals (set_processed_datetime kits3 inp.now)
        ["operation_state", "plan_id"] = some kits5 ∧
      format_locations kits5 = some kits6 ∧
      p = kits6 ++ dels := by
  unfold main_write at hp
  cases hk : inp.kitsFetch with
  | none => rw [hk] at hp; exact absurd hp (by simp)
  | some kits =>
  rw [hk] at hp
  simp only [Option.some_bind'] at hp
  cases h1 : stringify_signal_ids kits "signal_id" with
  | none => rw [h1] at hp; exact absurd hp (by simp)
  | some kits1 =>
  rw [h1] at hp
  simp only [Option.some_bind'] at hp
  cases hsoc : inp.statusFetch with
  | none => rw [hsoc] at hp; exact absurd hp (by simp)
  | some socrata =>
  rw [hsoc] at hp
  simp only [Option.some_bind'] at hp
  cases hdel : identify_deletes kits1 socrata with
  | none => rw [hdel] at hp; exact absurd hp (by simp)
  | some dels =>
  rw [hdel] at hp
  simp only [Option.some_bind'] at hp
  cases hass : inp.assetsFetch with
  | none => rw [hass] at hp; exact absurd hp (by simp)
  | some assets =>
  rw [hass] at hp
  simp only [Option.some_bind'] at hp
  cases h2 : merge_signal_asset_data kits1 assets with
  | none => rw [h2] at hp; exact absurd hp (by simp)
  | some kits2 =>
  rw [h2] at hp
  simp only [Option.some_bind'] at hp
  cases h3 : localize_operation_state_datetime kits2 "operation_state_datetime" with
  | none => rw [h3] at hp; exact absurd hp (by simp)
  | some kits3 =>
  rw [h3] at hp
  simp only [Option.some_bind'] at hp
  cases h5 : convert_decimals (set_processed_datetime kits3 inp.now)
      ["operation_state", "plan_id"] with
  | none => rw [h5] at hp; exact absurd hp (by simp)
  | some kits5 =>
  rw [h5] at hp
  simp only [Option.some_bind'] at hp
  cases h6 : format_locations kits5 with
  | none => rw [h6] at hp; exact absurd hp (by simp)
  | some kits6 =>
  rw [h6] at hp
  simp only [Option.some_bind'] at hp
  simp only [Option.some_bind, Option.some.injEq] at hp
  exact ⟨kits, socrata, assets, kits1, dels, kits2, kits3, kits5, kits6,
    rfl, rfl, rfl, h1, hdel, h2, h3, h5, h6, hp.symm⟩

/-!  Claim C2: the batched write payload. -/

/-- C2.  Whatever payload a run submits is exactly the normalized source
records followed by the deletion markers computed by identify_deletes, so
its length is the source count plus the marker count. -/
theorem main_payload_structure {inp : RunInputs} {kits p : List Record}
    (hk : inp.kitsFetch = some kits) (hp : main_write inp = some p) :
    ∃ socrata kits1 dels norm,
      inp.statusFetch = some socrata ∧
      stringify_signal_ids kits "signal_id" = some kits1 ∧
      identify_deletes kits1 socrata = some dels ∧
      p = norm ++ dels ∧
      norm.length = kits.length ∧
      p.length = kits.length + dels.length ∧
      (∃ assets kits2 kits3 kits5,
        inp.assetsFetch = some assets ∧
        merge_signal_asset_data kits1 assets = some kits2 ∧
        localize_operation_state_datetime kits2 "operation_state_datetime" = some kits3 ∧
        convert_decimals (set_processed_datetime kits3 inp.now)
          ["operation_state", "plan_id"] = some kits5 ∧
        format_locations kits5 = some norm) := by
  obtain ⟨kits0, socrata, assets, kits1, dels, kits2, kits3, kits5, kits6,
    hk0, hsoc, hass, h1, hdel, h2, h3, h5, h6, hpe⟩ := main_write_eq_some_inv hp
  have hkk : kits0 = kits := by
    rw [hk] at hk0
    exact (Option.some.inj hk0).symm
  rw [hkk] at h1
  have l1 : kits1.length = kits.length := omap_length h1
  have l2 : kits2.length = kits1.length := omap_length h2
  have l3 : kits3.length = kits2.length := omap_length h3
  have l4 : (set_processed_datetime kits3 inp.now).length = kits3.length :=
    List.length_map _ _
  have l5 : kits5.length = (set_processed_datetime kits3 inp.now).length :=
    omap_length h5
  have l6 : kits6.length = kits5.length := omap_length h6
  have lnorm : kits6.length = kits.length := by
    rw [l6, l5, l4, l3, l2, l1]
  refine ⟨socrata, kits1, dels, kits6, hsoc, h1, hdel, hpe, lnorm, ?_,
    assets, kits2, kits3, kits5, hass, h2, h3, h5, h6⟩
  rw [hpe, List.length_append, lnorm]

/-- Witness for C2: the spec example.  Sources 101 and 102, published 101
and 103; the submitted payload has length 3 = 2 + 1, ends in the marker
deleting 103, and decomposes as the theorem states. -/
theorem main_payload_structure_witness :
    main_write inpExample = some examplePayload ∧
    examplePayload.length = 3 ∧
    examplePayload.drop 2 = [[("signal_id", Value.vstr "103"), (":deleted", Value.vbool true)]] ∧
    (∃ socrata kits1 dels norm,
      inpExample.statusFetch = some socrata ∧
      stringify_signal_ids exampleKits "signal_id" = some kits1 ∧
      identify_deletes kits1 socrata = some dels ∧
      examplePayload = norm ++ dels ∧
      norm.length = exampleKits.length ∧
      examplePayload.length = exampleKits.length + dels.length ∧
      (∃ assets kits2 kits3 kits5,
        inpExample.assetsFetch = some assets ∧
        merge_signal_asset_data kits1 assets = some kits2 ∧
        localize_operation_state_datetime kits2 "operation_state_datetime" = some kits3 ∧
        convert_decimals (set_processed_datetime kits3 inpExample.now)
          ["operation_state", "plan_id"] = some kits5 ∧
        format_locations kits5 = some norm)) :=
  ⟨rfl, rfl, rfl, main_payload_structure rfl rfl⟩

/-!  Claim C8: error propagation. -/

/-- C8.  No step catches an error: a failed source query, a failed read of
either published dataset, or a failure inside any normalization pass means
the write call is never reached, and a write only happens when every
preceding step succeeded. -/
theorem error_propagation_no_write (inp : RunInputs) :
    (inp.kitsFetch = none → main_write inp = none) ∧
    (inp.statusFetch = none → main_write inp = none) ∧
    (inp.assetsFetch = none → main_write inp = none) ∧
    (∀ p, main_write inp = some p →
      ∃ kits socrata assets kits1 dels kits2 kits3 kits5 kits6,
        inp.kitsFetch = some kits ∧ inp.statusFetch = some socrata ∧
        inp.assetsFetch = some assets ∧
        stringify_signal_ids kits "signal_id" = some kits1 ∧
        identify_deletes kits1 socrata = some dels ∧
        merge_signal_asset_data kits1 assets = some kits2 ∧
        localize_operation_state_datetime kits2 "operation_state_datetime" = some kits3 ∧
        convert_decimals (set_processed_datetime kits3 inp.now)
          ["operation_state", "plan_id"] = some kits5 ∧
        format_locations kits5 = some kits6) := by
  refine ⟨?_, ?_, ?_, ?_⟩
  · intro h
    simp [main_write, h]
  · intro h
    cases hk : inp.kitsFetch with
    | none => simp [main_write, hk]
    | some kits =>
      cases h1 : stringify_signal_ids kits "signal_id" with
      | none => simp [main_write, hk, h1]
      | some kits1 => simp [main_write, hk, h1, h]
  · intro h
    cases hk : inp.kitsFetch with
    | none => simp [main_write, hk]
    | some kits =>
      cases h1 : stringify_signal_ids kits "signal_id" with
      | none => simp [main_write, hk, h1]
      | some kits1 =>
        cases hsoc : inp.statusFetch with
        | none => simp [main_write, hk, h1, hsoc]
        | some socrata =>
          cases hdel : identify_deletes kits1 socrata with
          | none => simp [main_write, hk, h1, hsoc, hdel]
          | some dels => simp [main_write, hk, h1, hsoc, hdel, h]
  · intro p hp
    obtain ⟨kits, socrata, assets, kits1, dels, kits2, kits3, kits5, kits6,
      a1, a2, a3, a4, a5, a6, a7, a8, a9, _⟩ := main_write_eq_some_inv hp
    exact ⟨kits, socrata, assets, kits1, dels, kits2, kits3, kits5, kits6,
      a1, a2, a3, a4, a5, a6, a7, a8, a9⟩

/-- Witness for C8: a run whose source query fails writes nothing, a run
whose published-status read fails writes nothing, a run whose asset read
fails writes nothing, and the successful example run implies every step
succeeded. -/
theorem error_propagation_no_write_witness :
    main_write ⟨none, some exampleSocrata, some [], exampleNow⟩ = none ∧
    main_write ⟨some exampleKits, none, some [], exampleNow⟩ = none ∧
    main_write ⟨some exampleKits, some exampleSocrata, none, exampleNow⟩ = none ∧
    (∃ kits socrata assets kits1 dels kits2 kits3 kits5 kits6,
      inpExample.kitsFetch = some kits ∧ inpExample.statusFetch = some socrata ∧
      inpExample.assetsFetch = some assets ∧
      stringify_signal_ids kits "signal_id" = some kits1 ∧
      identify_deletes kits1 socrata = some dels ∧
      merge_signal_asset_data kits1 assets = some kits2 ∧
      localize_operation_state_datetime kits2 "operation_state_datetime" = some kits3 ∧
      convert_decimals (set_processed_datetime kits3 inpExample.now)
        ["operation_state", "plan_id"] = some kits5 ∧
      format_locations kits5 = some kits6) :=
  ⟨(error_propagation_no_write ⟨none, some exampleSocrata, some [], exampleNow⟩).1 rfl,
   (error_propagation_no_write ⟨some exampleKits, none, some [], exampleNow⟩).2.1 rfl,
   (error_propagation_no_write ⟨some exampleKits, some exampleSocrata, none, exampleNow⟩).2.2.1 rfl,
   (error_propagation_no_write inpExample).2.2.2 examplePayload rfl⟩

/-!  Claim C6: timestamp localization. -/

/-- C6.  Every record whose event timestamp is a naive datetime gets it
replaced by the zone-free string built from exactly the wall-clock fields of
that datetime, zero padded, with second precision: the replace(tzinfo=tz)
step keeps the wall clock and the format string carries no offset. -/
theorem localize_preserves_wall_clock (rs : List Record)
    (h : ∀ r ∈ rs, ∃ d, getVal r "operation_state_datetime" = some (Value.vdt d)) :
    ∃ rs', localize_operation_state_datetime rs "operation_state_datetime" = some rs' ∧
      List.Forall₂ (fun r r' =>
        ∀ d, getVal r "operation_state_datetime" = some (Value.vdt d) →
          getVal r' "operation_state_datetime" =
            some (Value.vstr (pad 4 d.year ++ "-" ++ pad 2 d.month ++ "-" ++
              pad 2 d.day ++ "T" ++ pad 2 d.hour ++ ":" ++ pad 2 d.minute ++ ":" ++
              pad 2 d.second))) rs rs' := by
  induction rs with
  | nil => exact ⟨[], rfl, List.Forall₂.nil⟩
  | cons a t ih =>
    obtain ⟨d, hd⟩ := h a (List.mem_cons_self a t)
    obtain ⟨t', ht', hf⟩ := ih (fun r hr => h r (List.mem_cons_of_mem a hr))
    refine ⟨setVal a "operation_state_datetime" (Value.vstr (fmtDT d)) :: t', ?_, ?_⟩
    · show omap (localizeOne "operation_state_datetime") (a :: t) = _
      have ht'' : omap (localizeOne "operation_state_datetime") t = some t' := ht'
      simp only [omap, localizeOne, hd, ht'']
    · refine List.Forall₂.cons ?_ hf
      intro d' hd'
      have hdd : d = d' := Value.vdt.inj (Option.some.inj (hd.symm.trans hd'))
      rw [← hdd]
      exact getVal_setVal_self a "operation_state_datetime" (Value.vstr (fmtDT d))

/-- Witness for C6: the spec round-trip example, 2024-01-15 08:30:00
naive becomes "2024-01-15T08:30:00". -/
theorem localize_preserves_wall_clock_witness :
    (∃ rs', localize_operation_state_datetime
        [[("operation_state_datetime", Value.vdt ⟨2024, 1, 15, 8, 30, 0⟩)]]
        "operation_state_datetime" = some rs' ∧
      List.Forall₂ (fun r r' =>
        ∀ d, getVal r "operation_state_datetime" = some (Value.vdt d) →
          getVal r' "operation_state_datetime" =
            some (Value.vstr (pad 4 d.year ++ "-" ++ pad 2 d.month ++ "-" ++
              pad 2 d.day ++ "T" ++ pad 2 d.hour ++ ":" ++ pad 2 d.minute ++ ":" ++
              pad 2 d.second)))
        [[("operation_state_datetime", Value.vdt ⟨2024, 1, 15, 8, 30, 0⟩)]] rs') ∧
    localize_operation_state_datetime
        [[("operation_state_datetime", Value.vdt ⟨2024, 1, 15, 8, 30, 0⟩)]]
        "operation_state_datetime" =
      some [[("operation_state_datetime", Value.vstr "2024-01-15T08:30:00")]] :=
  ⟨localize_preserves_wall_clock _
    (by
      intro r hr
      rw [List.mem_singleton] at hr
      exact ⟨⟨2024, 1, 15, 8, 30, 0⟩, by rw [hr]; rfl⟩),
   rfl⟩

/-!  Claim C7: type coercion. -/

theorem convertOne_two_keys {r r' : Record}
    (h : convertOne ["operation_state", "plan_id"] r = some r') :
    (∃ v n, getVal r "operation_state" = some v ∧ pyInt v = some n ∧
      getVal r' "operation_state" = some (Value.vint n)) ∧
    (∃ v n, getVal r "plan_id" = some v ∧ pyInt v = some n ∧
      getVal r' "plan_id" = some (Value.vint n)) ∧
    (∀ k, k ≠ "operation_state" → k ≠ "plan_id" → getVal r' k = getVal r k) := by
  replace h : ((getVal r "operation_state").bind fun v =>
      (pyInt v).bind fun n =>
      convertOne ["plan_id"] (setVal r "operation_state" (Value.vint n))) = some r' := h
  obtain ⟨v1, hv1, h⟩ := Option.bind_eq_some.mp h
  obtain ⟨n1, hn1, h⟩ := Option.bind_eq_some.mp h
  replace h : ((getVal (setVal r "operation_state" (Value.vint n1)) "plan_id").bind fun v =>
      (pyInt v).bind fun n =>
      some (setVal (setVal r "operation_state" (Value.vint n1)) "plan_id"
        (Value.vint n))) = some r' := h
  obtain ⟨v2, hv2, h⟩ := Option.bind_eq_some.mp h
  obtain ⟨n2, hn2, h⟩ := Option.bind_eq_some.mp h
  have hr' : r' = setVal (setVal r "operation_state" (Value.vint n1)) "plan_id"
      (Value.vint n2) := (Option.some.inj h).symm
  have hne : ("plan_id" : String) ≠ "operation_state" := by decide
  refine ⟨⟨v1, n1, hv1, hn1, ?_⟩, ⟨v2, n2, ?_, hn2, ?_⟩, ?_⟩
  · rw [hr', getVal_setVal_ne _ _ hne.symm, getVal_setVal_self]
  · rw [← hv2, getVal_setVal_ne _ _ hne]
  · rw [hr', getVal_setVal_self]
  · intro k hk1 hk2
    rw [hr', getVal_setVal_ne _ _ hk2, getVal_setVal_ne _ _ hk1]

/-- C7.  convert_decimals forces operation_state and plan_id of every record
to integers computed by int() from the original numeric values, and touches
no other field. -/
theorem convert_decimals_int_types {rs rs' : List Record}
    (h : convert_decimals rs ["operation_state", "plan_id"] = some rs') :
    List.Forall₂ (fun r r' =>
      (∃ v n, getVal r "operation_state" = some v ∧ pyInt v = some n ∧
        getVal r' "operation_state" = some (Value.vint n)) ∧
      (∃ v n, getVal r "plan_id" = some v ∧ pyInt v = some n ∧
        getVal r' "plan_id" = some (Value.vint n)) ∧
      (∀ k, k ≠ "operation_state" → k ≠ "plan_id" → getVal r' k = getVal r k))
      rs rs' := by
  exact List.Forall₂.imp (fun a b hab => convertOne_two_keys hab) (omap_forall₂ h)

/-- Witness for C7: the spec example, a Decimal operation_state carrying
2.0 becomes the integer 2, and the untouched signal_id field survives. -/
theorem convert_decimals_int_types_witness :
    List.Forall₂ (fun r r' =>
      (∃ v n, getVal r "operation_state" = some v ∧ pyInt v = some n ∧
        getVal r' "operation_state" = some (Value.vint n)) ∧
      (∃ v n, getVal r "plan_id" = some v ∧ pyInt v = some n ∧
        getVal r' "plan_id" = some (Value.vint n)) ∧
      (∀ k, k ≠ "operation_state" → k ≠ "plan_id" → getVal r' k = getVal r k))
      [[("operation_state", Value.vdec 20 1), ("plan_id", Value.vint 1),
        ("signal_id", Value.vstr "101")]]
      [[("operation_state", Value.vint 2), ("plan_id", Value.vint 1),
        ("signal_id", Value.vstr "101")]] ∧
    convert_decimals
      [[("operation_state", Value.vdec 20 1), ("plan_id", Value.vint 1),
        ("signal_id", Value.vstr "101")]] ["operation_state", "plan_id"] =
      some [[("operation_state", Value.vint 2), ("plan_id", Value.vint 1),
        ("signal_id", Value.vstr "101")]] :=
  ⟨convert_decimals_int_types rfl, rfl⟩

/-!  Claims C5 and C9: the asset merge. -/

theorem matchPred_eq {a kr : Record} {b : Bool}
    (h : (match getVal a "signal_id", getVal kr "signal_id" with
          | some av, some kv => some (pyEq av kv)
          | _, _ => none) = some b) :
    matchesB a kr = b := by
  unfold matchesB
  cases ha : getVal a "signal_id" with
  | none =>
    rw [ha] at h
    exact absurd h (by cases getVal kr "signal_id" <;> simp)
  | some av =>
    rw [ha] at h
    cases hk : getVal kr "signal_id" with
    | none =>
      rw [hk] at h
      exact absurd h (by simp)
    | some kv =>
      rw [hk] at h
      exact Option.some.inj h

theorem ofilter_cons_inv {α : Type} {f : α → Option Bool} {a : α} {t l' : List α}
    (h : ofilter f (a :: t) = some l') :
    ∃ b rt, f a = some b ∧ ofilter f t = some rt ∧
      l' = (if b then a :: rt else rt) := by
  simp only [ofilter] at h
  cases hfa : f a with
  | none => rw [hfa] at h; exact absurd h (by simp)
  | some b =>
    rw [hfa] at h
    cases hrt : ofilter f t with
    | none => rw [hrt] at h; cases b <;> exact absurd h (by simp)
    | some rt =>
      rw [hrt] at h
      cases b with
      | true => exact ⟨true, rt, rfl, rfl, by simp [← Option.some.inj h]⟩
      | false => exact ⟨false, rt, rfl, rfl, by simp [← Option.some.inj h]⟩

theorem getVal_foldl_asset_fields (kr m : Record) (f : String)
    (hf : f ∈ asset_fields) :
    getVal (asset_fields.foldl
        (fun r key => setVal r key ((getVal m key).getD Value.vnone)) kr) f =
      some ((getVal m f).getD Value.vnone) := by
  simp only [asset_fields, List.foldl_cons, List.foldl_nil]
  simp only [asset_fields, List.mem_cons, List.not_mem_nil, or_false] at hf
  rcases hf with rfl | rfl | rfl | rfl
  · rw [getVal_setVal_ne _ _ (by decide), getVal_setVal_ne _ _ (by decide),
      getVal_setVal_ne _ _ (by decide), getVal_setVal_self]
  · rw [getVal_setVal_ne _ _ (by decide), getVal_setVal_ne _ _ (by decide),
      getVal_setVal_self]
  · rw [getVal_setVal_ne _ _ (by decide), getVal_setVal_self]
  · rw [getVal_setVal_self]

theorem mergeOne_cons_true {assets : List Record} {a kr : Record}
    (hmatch : (match getVal a "signal_id", getVal kr "signal_id" with
          | some av, some kv => some (pyEq av kv)
          | _, _ => none) = some true)
    {rt : List Record} (hrt : matchAssets assets kr = some rt) :
    mergeOne (a :: assets) kr =
      some (asset_fields.foldl
        (fun r key => setVal r key ((getVal a key).getD Value.vnone)) kr) := by
  unfold mergeOne matchAssets
  unfold matchAssets at hrt
  simp only [ofilter, hmatch, hrt]

theorem mergeOne_cons_false {assets : List Record} {a kr : Record}
    (hmatch : (match getVal a "signal_id", getVal kr "signal_id" with
          | some av, some kv => some (pyEq av kv)
          | _, _ => none) = some false) :
    mergeOne (a :: assets) kr = mergeOne assets kr := by
  unfold mergeOne matchAssets
  simp only [ofilter, hmatch]
  cases hrt : ofilter (fun a =>
      match getVal a "signal_id", getVal kr "signal_id" with
      | some av, some kv => some (pyEq av kv)
      | _, _ => none) assets <;> rfl

/-- Per-record behaviour of the asset merge: it succeeds whenever the source
record and every asset record carry a signal_id, it leaves the record
untouched when no asset matches, and it copies the four descriptive fields
from the first matching asset otherwise. -/
theorem mergeOne_spec (assets : List Record) (kr : Record)
    (hkr : (getVal kr "signal_id").isSome)
    (hassets : ∀ a ∈ assets, (getVal a "signal_id").isSome) :
    ∃ kr', mergeOne assets kr = some kr' ∧
      (assets.find? (fun a => matchesB a kr) = none → kr' = kr) ∧
      (∀ m, assets.find? (fun a => matchesB a kr) = some m →
        ∀ f ∈ asset_fields, getVal kr' f = some ((getVal m f).getD Value.vnone)) := by
  induction assets with
  | nil =>
    refine ⟨kr, rfl, fun _ => rfl, fun m hm => absurd hm (by simp)⟩
  | cons a t ih =>
    obtain ⟨av, hav⟩ := Option.isSome_iff_exists.mp (hassets a (List.mem_cons_self a t))
    obtain ⟨kv, hkv⟩ := Option.isSome_iff_exists.mp hkr
    have hpred : (match getVal a "signal_id", getVal kr "signal_id" with
        | some av, some kv => some (pyEq av kv)
        | _, _ => none) = some (pyEq av kv) := by
      rw [hav, hkv]
    have hmB : matchesB a kr = pyEq av kv := matchPred_eq hpred
    obtain ⟨kr', hkr', hnone, hsome⟩ := ih (fun x hx => hassets x (List.mem_cons_of_mem a hx))
    cases hb : pyEq av kv with
    | true =>
      obtain ⟨matched, hmatched⟩ : ∃ l, matchAssets t kr = some l := by
        cases hma : mergeOne t kr
        · rw [hma] at hkr'; exact absurd hkr' (by simp)
        · unfold mergeOne at hma
          cases hx : matchAssets t kr
          · rw [hx] at hma; exact absurd hma (by simp)
          · exact ⟨_, rfl⟩
      rw [hb] at hpred
      refine ⟨asset_fields.foldl
        (fun r key => setVal r key ((getVal a key).getD Value.vnone)) kr,
        mergeOne_cons_true hpred hmatched, ?_, ?_⟩
      · intro hfind
        rw [List.find?_cons_of_pos _ (by rw [hmB, hb])] at hfind
        exact absurd hfind (by simp)
      · intro m hfind f hf
        rw [List.find?_cons_of_pos _ (by rw [hmB, hb])] at hfind
        rw [← Option.some.inj hfind]
        exact getVal_foldl_asset_fields kr a f hf
    | false =>
      rw [hb] at hpred
      refine ⟨kr', (mergeOne_cons_false hpred).trans hkr', ?_, ?_⟩
      · intro hfind
        rw [List.find?_cons_of_neg _ (by rw [hmB, hb]; exact Bool.false_ne_true)] at hfind
        exact hnone hfind
      · intro m hfind
        rw [List.find?_cons_of_neg _ (by rw [hmB, hb]; exact Bool.false_ne_true)] at hfind
        exact hsome m hfind

/-- C5.  Over a whole collection whose records and assets all carry ids,
merge_signal_asset_data succeeds; each record with no matching asset is left
untouched (descriptive fields stay unset, nothing raises), and each record
with one or more matching assets receives location, location_name,
primary_st and cross_st from the first match in asset order. -/
theorem merge_signal_asset_spec {kits assets : List Record}
    (hkits : ∀ r ∈ kits, (getVal r "signal_id").isSome)
    (hassets : ∀ a ∈ assets, (getVal a "signal_id").isSome) :
    ∃ kits', merge_signal_asset_data kits assets = some kits' ∧
      List.Forall₂ (fun kr kr' =>
        (assets.find? (fun a => matchesB a kr) = none → kr' = kr) ∧
        (∀ m, assets.find? (fun a => matchesB a kr) = some m →
          ∀ f ∈ asset_fields, getVal kr' f = some ((getVal m f).getD Value.vnone)))
        kits kits' := by
  induction kits with
  | nil => exact ⟨[], rfl, List.Forall₂.nil⟩
  | cons kr t ih =>
    obtain ⟨kr', h1, h2, h3⟩ :=
      mergeOne_spec assets kr (hkits kr (List.mem_cons_self kr t)) hassets
    obtain ⟨t', ht', hf⟩ := ih (fun r hr => hkits r (List.mem_cons_of_mem kr hr))
    refine ⟨kr' :: t', ?_, List.Forall₂.cons ⟨h2, h3⟩ hf⟩
    show omap (mergeOne assets) (kr :: t) = some (kr' :: t')
    have ht'' : omap (mergeOne assets) t = some t' := ht'
    simp only [omap, h1, ht'']

/-- Witness for C5: the spec example.  Source record with id 101 and one
matching asset carrying location_name Main & 5th: the merge copies the
name; source record with id 102 and no matching asset: the record is
unchanged and the run does not fail. -/
theorem merge_signal_asset_spec_witness :
    (∃ kits', merge_signal_asset_data
        [[("signal_id", Value.vstr "101")], [("signal_id", Value.vstr "102")]]
        [[("signal_id", Value.vstr "101"), ("location_name", Value.vstr "Main & 5th")]] =
          some kits' ∧
      List.Forall₂ (fun kr kr' =>
        (List.find? (fun a => matchesB a kr)
            [[("signal_id", Value.vstr "101"), ("location_name", Value.vstr "Main & 5th")]] =
              none → kr' = kr) ∧
        (∀ m, List.find? (fun a => matchesB a kr)
            [[("signal_id", Value.vstr "101"), ("location_name", Value.vstr "Main & 5th")]] =
              some m →
          ∀ f ∈ asset_fields, getVal kr' f = some ((getVal m f).getD Value.vnone)))
        [[("signal_id", Value.vstr "101")], [("signal_id", Value.vstr "102")]] kits') ∧
    merge_signal_asset_data
        [[("signal_id", Value.vstr "101")], [("signal_id", Value.vstr "102")]]
        [[("signal_id", Value.vstr "101"), ("location_name", Value.vstr "Main & 5th")]] =
      some [[("signal_id", Value.vstr "101"), ("location", Value.vnone),
             ("location_name", Value.vstr "Main & 5th"), ("primary_st", Value.vnone),
             ("cross_st", Value.vnone)],
            [("signal_id", Value.vstr "102")]] :=
  ⟨merge_signal_asset_spec (by decide) (by decide), rfl⟩

/-- C9.  When the first matching asset record lacks one of the four
descriptive fields, the merge still sets that key on the source record,
with value None (dict.get returns None for a missing key and dict.update
stores it). -/
theorem merge_missing_asset_fields_none {assets : List Record} {kr kr' m : Record}
    {f : String} (hmerge : mergeOne assets kr = some kr')
    (hfind : assets.find? (fun a => matchesB a kr) = some m)
    (hf : f ∈ asset_fields) (hmf : getVal m f = none) :
    getVal kr' f = some Value.vnone := by
  induction assets with
  | nil => exact absurd hfind (by simp)
  | cons a t ih =>
    have hsome : ∃ b, (match getVal a "signal_id", getVal kr "signal_id" with
        | some av, some kv => some (pyEq av kv)
        | _, _ => none) = some b := by
      unfold mergeOne at hmerge
      cases hma : matchAssets (a :: t) kr with
      | none => rw [hma] at hmerge; exact absurd hmerge (by simp)
      | some matched =>
        obtain ⟨b, rt, hb, _, _⟩ := ofilter_cons_inv hma
        exact ⟨b, hb⟩
    obtain ⟨b, hb⟩ := hsome
    have hmB : matchesB a kr = b := matchPred_eq hb
    cases b with
    | true =>
      rw [List.find?_cons_of_pos _ (by rw [hmB])] at hfind
      have hm : a = m := Option.some.inj hfind
      subst hm
      obtain ⟨matched, hmatched⟩ : ∃ l, matchAssets t kr = some l := by
        unfold mergeOne at hmerge
        cases hma : matchAssets (a :: t) kr with
        | none => rw [hma] at hmerge; exact absurd hmerge (by simp)
        | some matched =>
          obtain ⟨b', rt, hb', hrt, _⟩ := ofilter_cons_inv hma
          exact ⟨rt, hrt⟩
      rw [mergeOne_cons_true hb hmatched] at hmerge
      rw [← Option.some.inj hmerge]
      rw [getVal_foldl_asset_fields kr a f hf, hmf]
      rfl
    | false =>
      rw [List.find?_cons_of_neg _ (by rw [hmB]; exact Bool.false_ne_true)] at hfind
      rw [mergeOne_cons_false hb] at hmerge
      exact ih hmerge hfind

/-- Witness for C9: the matching asset for id 101 has no primary_st field;
after the merge the source record carries primary_st with value None. -/
theorem merge_missing_asset_fields_none_witness :
    getVal [("signal_id", Value.vstr "101"), ("location", Value.vnone),
            ("location_name", Value.vstr "Main & 5th"), ("primary_st", Value.vnone),
            ("cross_st", Value.vnone)] "primary_st" = some Value.vnone :=
  @merge_missing_asset_fields_none
    [[("signal_id", Value.vstr "101"), ("location_name", Value.vstr "Main & 5th")]]
    [("signal_id", Value.vstr "101")]
    [("signal_id", Value.vstr "101"), ("location", Value.vnone),
     ("location_name", Value.vstr "Main & 5th"), ("primary_st", Value.vnone),
     ("cross_st", Value.vnone)]
    [("signal_id", Value.vstr "101"), ("location_name", Value.vstr "Main & 5th")]
    "primary_st" rfl rfl (by decide) rfl

/-!  Claim C3: location formatting. -/

theorem formatOne_spec {r r' : Record} (h : formatOne r = some r') :
    (∀ loc, getVal r "location" = some (Value.vobj loc) →
      (truthy ((getVal loc "latitude").getD Value.vnone) &&
        truthy ((getVal loc "longitude").getD Value.vnone)) = true →
      r' = setVal r "location" (Value.vstr
        ("(" ++ pyStr ((getVal loc "longitude").getD Value.vnone) ++ ", " ++
          pyStr ((getVal loc "latitude").getD Value.vnone) ++ ")"))) ∧
    (∀ loc, getVal r "location" = some (Value.vobj loc) →
      (truthy ((getVal loc "latitude").getD Value.vnone) &&
        truthy ((getVal loc "longitude").getD Value.vnone)) = false →
      r' = r) ∧
    (getVal r "location" = none → r' = r) := by
  unfold formatOne at h
  cases hloc : getVal r "location" with
  | none =>
    rw [hloc] at h
    exact ⟨fun loc hl _ => absurd hl (by simp),
      fun loc hl _ => absurd hl (by simp),
      fun _ => (Option.some.inj h).symm⟩
  | some v =>
    rw [hloc] at h
    cases v with
    | vobj loc0 =>
      replace h : (if (truthy ((getVal loc0 "latitude").getD Value.vnone) &&
          truthy ((getVal loc0 "longitude").getD Value.vnone)) = true then
          some (setVal r "location" (Value.vstr
            ("(" ++ pyStr ((getVal loc0 "longitude").getD Value.vnone) ++ ", " ++
              pyStr ((getVal loc0 "latitude").getD Value.vnone) ++ ")")))
        else some r) = some r' := h
      cases htr : (truthy ((getVal loc0 "latitude").getD Value.vnone) &&
          truthy ((getVal loc0 "longitude").getD Value.vnone)) with
      | true =>
        rw [if_pos htr] at h
        refine ⟨?_, ?_, fun hn => absurd hn (by simp)⟩
        · intro loc hl _
          have hl0 : loc = loc0 := (Value.vobj.inj (Option.some.inj hl)).symm
          rw [hl0, ← Option.some.inj h]
        · intro loc hl hfalse
          have hl0 : loc = loc0 := (Value.vobj.inj (Option.some.inj hl)).symm
          rw [hl0] at hfalse
          exact absurd (htr.symm.trans hfalse) (by simp)
      | false =>
        rw [if_neg (by rw [htr]; exact Bool.false_ne_true)] at h
        refine ⟨?_, ?_, fun hn => absurd hn (by simp)⟩
        · intro loc hl htru
          have hl0 : loc = loc0 := (Value.vobj.inj (Option.some.inj hl)).symm
          rw [hl0] at htru
          exact absurd (htr.symm.trans htru) (by simp)
        · intro loc hl _
          exact (Option.some.inj h).symm
    | vstr x => exact absurd (show (none : Option Record) = some r' from h) (by simp)
    | vint x => exact absurd (show (none : Option Record) = some r' from h) (by simp)
    | vdec x y => exact absurd (show (none : Option Record) = some r' from h) (by simp)
    | vbool x => exact absurd (show (none : Option Record) = some r' from h) (by simp)
    | vnone => exact absurd (show (none : Option Record) = some r' from h) (by simp)
    | vdt x => exact absurd (show (none : Option Record) = some r' from h) (by simp)

/-- Amended C3.  format_locations replaces the location field with the
string "(lon, lat)" whenever the record carries a location dict whose
latitude and longitude values are both present and truthy (non-empty,
non-zero, non-None); when the dict lacks a truthy component the field is
left exactly as it was, and an absent location field is also left alone. -/
theorem format_locations_truthy {rs rs' : List Record}
    (h : format_locations rs = some rs') :
    List.Forall₂ (fun r r' =>
      (∀ loc, getVal r "location" = some (Value.vobj loc) →
        (truthy ((getVal loc "latitude").getD Value.vnone) &&
          truthy ((getVal loc "longitude").getD Value.vnone)) = true →
        r' = setVal r "location" (Value.vstr
          ("(" ++ pyStr ((getVal loc "longitude").getD Value.vnone) ++ ", " ++
            pyStr ((getVal loc "latitude").getD Value.vnone) ++ ")"))) ∧
      (∀ loc, getVal r "location" = some (Value.vobj loc) →
        (truthy ((getVal loc "latitude").getD Value.vnone) &&
          truthy ((getVal loc "longitude").getD Value.vnone)) = false →
        r' = r) ∧
      (getVal r "location" = none → r' = r)) rs rs' :=
  List.Forall₂.imp (fun _ _ hab => formatOne_spec hab) (omap_forall₂ h)

/-- Witness for amended C3: the record with latitude 30.1 and longitude
-97.7 becomes the string "(-97.7, 30.1)", and the record whose location is
the empty dict is unchanged. -/
theorem format_locations_truthy_witness :
    List.Forall₂ (fun r r' =>
      (∀ loc, getVal r "location" = some (Value.vobj loc) →
        (truthy ((getVal loc "latitude").getD Value.vnone) &&
          truthy ((getVal loc "longitude").getD Value.vnone)) = true →
        r' = setVal r "location" (Value.vstr
          ("(" ++ pyStr ((getVal loc "longitude").getD Value.vnone) ++ ", " ++
            pyStr ((getVal loc "latitude").getD Value.vnone) ++ ")"))) ∧
      (∀ loc, getVal r "location" = some (Value.vobj loc) →
        (truthy ((getVal loc "latitude").getD Value.vnone) &&
          truthy ((getVal loc "longitude").getD Value.vnone)) = false →
        r' = r) ∧
      (getVal r "location" = none → r' = r))
      [[("location", Value.vobj [("latitude", Value.vdec 301 1),
          ("longitude", Value.vdec (-977) 1)])],
       [("location", Value.vobj [])]]
      [[("location", Value.vstr "(-97.7, 30.1)")],
       [("location", Value.vobj [])]] ∧
    format_locations
      [[("location", Value.vobj [("latitude", Value.vdec 301 1),
          ("longitude", Value.vdec (-977) 1)])],
       [("location", Value.vobj [])]] =
      some [[("location", Value.vstr "(-97.7, 30.1)")],
        [("location", Value.vobj [])]] :=
  ⟨format_locations_truthy rfl, rfl⟩

/-- Counterexample to C3 as stated: the record whose location dict carries
latitude 0 and longitude -97.7 has both coordinate components present, yet
format_locations leaves it unchanged (0 is falsy in the truthiness test the
code actually performs), instead of replacing the field with a string. -/
theorem format_locations_presence_cex :
    (getVal [("latitude", Value.vint 0), ("longitude", Value.vdec (-977) 1)]
      "latitude").isSome = true ∧
    (getVal [("latitude", Value.vint 0), ("longitude", Value.vdec (-977) 1)]
      "longitude").isSome = true ∧
    format_locations [[("location", Value.vobj
        [("latitude", Value.vint 0), ("longitude", Value.vdec (-977) 1)])]] =
      some [[("location", Value.vobj
        [("latitude", Value.vint 0), ("longitude", Value.vdec (-977) 1)])]] ∧
    (∀ s : String, getVal [("location", Value.vobj
        [("latitude", Value.vint 0), ("longitude", Value.vdec (-977) 1)])]
      "location" ≠ some (Value.vstr s)) :=
  ⟨rfl, rfl, rfl, fun _ h => Value.noConfusion (Option.some.inj h)⟩

/-!  Claim C4: idempotence of passes 1, 5 and 6. -/

theorem omap_idem {α : Type} {f : α → Option α}
    (hf : ∀ a b, f a = some b → f b = some b) :
    ∀ {l l' : List α}, omap f l = some l' → omap f l' = some l'
  | [], l', h => by
    simp only [omap, Option.some.injEq] at h
    rw [← h]
    rfl
  | a :: t, l', h => by
    simp only [omap] at h
    cases hfa : f a with
    | none => rw [hfa] at h; exact absurd h (by simp)
    | some b =>
      rw [hfa] at h
      cases hrest : omap f t with
      | none => rw [hrest] at h; exact absurd h (by simp)
      | some bs =>
        rw [hrest] at h
        rw [← Option.some.inj h]
        have h1 : f b = some b := hf a b hfa
        have h2 : omap f bs = some bs := omap_idem hf hrest
        show omap f (b :: bs) = some (b :: bs)
        simp only [omap, h1, h2]

theorem omap_idem_or {α : Type} {f : α → Option α}
    (hf : ∀ a b, f a = some b → f b = some b ∨ f b = none) :
    ∀ {l l' : List α}, omap f l = some l' →
      omap f l' = some l' ∨ omap f l' = none
  | [], l', h => by
    simp only [omap, Option.some.injEq] at h
    rw [← h]
    exact Or.inl rfl
  | a :: t, l', h => by
    simp only [omap] at h
    cases hfa : f a with
    | none => rw [hfa] at h; exact absurd h (by simp)
    | some b =>
      rw [hfa] at h
      cases hrest : omap f t with
      | none => rw [hrest] at h; exact absurd h (by simp)
      | some bs =>
        rw [hrest] at h
        rw [← Option.some.inj h]
        show omap f (b :: bs) = some (b :: bs) ∨ omap f (b :: bs) = none
        rcases hf a b hfa with h1 | h1
        · rcases omap_idem_or hf hrest with h2 | h2
          · exact Or.inl (by simp only [omap, h1, h2])
          · exact Or.inr (by simp only [omap, h1, h2])
        · exact Or.inr (by simp only [omap, h1])

theorem stringifyOne_idem {key : String} {r r' : Record}
    (h : stringifyOne key r = some r') : stringifyOne key r' = some r' := by
  unfold stringifyOne at h ⊢
  cases hv : getVal r key with
  | none => rw [hv] at h; exact absurd h (by simp)
  | some v =>
    rw [hv] at h
    have hr' : r' = setVal r key (Value.vstr (pyStr v)) := (Option.some.inj h).symm
    rw [hr', getVal_setVal_self]
    show some (setVal (setVal r key (Value.vstr (pyStr v))) key
      (Value.vstr (pyStr (Value.vstr (pyStr v))))) = _
    rw [show pyStr (Value.vstr (pyStr v)) = pyStr v from rfl, setVal_setVal_self]

theorem hasKey_of_getVal_eq_some {r : Record} {k : String} {v : Value}
    (h : getVal r k = some v) : hasKey r k = true := by
  induction r with
  | nil => exact absurd h (by simp [getVal])
  | cons p t ih =>
    obtain ⟨pk, pv⟩ := p
    rw [getVal_cons] at h
    rw [hasKey_cons]
    by_cases hp : pk = k
    · simp [hp]
    · rw [if_neg hp] at h
      simp [ih h]

theorem convertOne_idem {r r' : Record}
    (h : convertOne ["operation_state", "plan_id"] r = some r') :
    convertOne ["operation_state", "plan_id"] r' = some r' := by
  replace h : ((getVal r "operation_state").bind fun v =>
      (pyInt v).bind fun n =>
      convertOne ["plan_id"] (setVal r "operation_state" (Value.vint n))) = some r' := h
  obtain ⟨v1, hv1, h⟩ := Option.bind_eq_some.mp h
  obtain ⟨n1, hn1, h⟩ := Option.bind_eq_some.mp h
  replace h : ((getVal (setVal r "operation_state" (Value.vint n1)) "plan_id").bind fun v =>
      (pyInt v).bind fun n =>
      some (setVal (setVal r "operation_state" (Value.vint n1)) "plan_id"
        (Value.vint n))) = some r' := h
  obtain ⟨v2, hv2, h⟩ := Option.bind_eq_some.mp h
  obtain ⟨n2, hn2, h⟩ := Option.bind_eq_some.mp h
  have hr' : r' = setVal (setVal r "operation_state" (Value.vint n1)) "plan_id"
      (Value.vint n2) := (Option.some.inj h).symm
  have hne : ("plan_id" : String) ≠ "operation_state" := by decide
  have hg1 : getVal r' "operation_state" = some (Value.vint n1) := by
    rw [hr', getVal_setVal_ne _ _ hne.symm, getVal_setVal_self]
  have hg2 : getVal r' "plan_id" = some (Value.vint n2) := by
    rw [hr', getVal_setVal_self]
  have hs1 : setVal r' "operation_state" (Value.vint n1) = r' := by
    rw [hr', setVal_comm_of_hasKey _ _ (by decide) (hasKey_of_getVal_eq_some hv2),
      setVal_setVal_self]
  have hs2 : setVal r' "plan_id" (Value.vint n2) = r' := by
    rw [hr', setVal_setVal_self]
  show ((getVal r' "operation_state").bind fun v =>
      (pyInt v).bind fun n =>
      convertOne ["plan_id"] (setVal r' "operation_state" (Value.vint n))) = some r'
  rw [hg1, Option.some_bind']
  show convertOne ["plan_id"] (setVal r' "operation_state" (Value.vint n1)) = some r'
  rw [hs1]
  show ((getVal r' "plan_id").bind fun v =>
      (pyInt v).bind fun n =>
      some (setVal r' "plan_id" (Value.vint n))) = some r'
  rw [hg2, Option.some_bind']
  show some (setVal r' "plan_id" (Value.vint n2)) = some r'
  rw [hs2]

theorem formatOne_idem_or {r r' : Record} (h : formatOne r = some r') :
    formatOne r' = some r' ∨ formatOne r' = none := by
  obtain ⟨h1, h2, h3⟩ := formatOne_spec h
  cases hloc : getVal r "location" with
  | none =>
    rw [h3 hloc]
    left
    unfold formatOne
    rw [hloc]
  | some v =>
    cases v with
    | vobj loc0 =>
      cases htr : (truthy ((getVal loc0 "latitude").getD Value.vnone) &&
          truthy ((getVal loc0 "longitude").getD Value.vnone)) with
      | true =>
        right
        rw [h1 loc0 hloc htr]
        unfold formatOne
        rw [getVal_setVal_self]
      | false =>
        left
        rw [h2 loc0 hloc htr]
        unfold formatOne
        rw [hloc]
        show (if (truthy ((getVal loc0 "latitude").getD Value.vnone) &&
            truthy ((getVal loc0 "longitude").getD Value.vnone)) = true then
            some (setVal r "location" (Value.vstr
              ("(" ++ pyStr ((getVal loc0 "longitude").getD Value.vnone) ++ ", " ++
                pyStr ((getVal loc0 "latitude").getD Value.vnone) ++ ")")))
          else some r) = some r
        rw [if_neg (by rw [htr]; exact Bool.false_ne_true)]
    | vstr x =>
      unfold formatOne at h
      rw [hloc] at h
      exact absurd (show (none : Option Record) = some r' from h) (by simp)
    | vint x =>
      unfold formatOne at h
      rw [hloc] at h
      exact absurd (show (none : Option Record) = some r' from h) (by simp)
    | vdec x y =>
      unfold formatOne at h
      rw [hloc] at h
      exact absurd (show (none : Option Record) = some r' from h) (by simp)
    | vbool x =>
      unfold formatOne at h
      rw [hloc] at h
      exact absurd (show (none : Option Record) = some r' from h) (by simp)
    | vnone =>
      unfold formatOne at h
      rw [hloc] at h
      exact absurd (show (none : Option Record) = some r' from h) (by simp)
    | vdt x =>
      unfold formatOne at h
      rw [hloc] at h
      exact absurd (show (none : Option Record) = some r' from h) (by simp)

/-- Amended C4.  Passes 1 (identifier stringification) and 5 (type
coercion) are idempotent: re-applying either to its own output returns that
output unchanged.  Pass 6 (location formatting) is not: re-applying it
either returns its output unchanged (when no location was formatted) or
raises, because a formatted location is a string and strings have no .get;
it never silently changes the data. -/
theorem normalizer_idempotence_amended :
    (∀ rs rs' : List Record, stringify_signal_ids rs "signal_id" = some rs' →
      stringify_signal_ids rs' "signal_id" = some rs') ∧
    (∀ rs rs' : List Record, convert_decimals rs ["operation_state", "plan_id"] = some rs' →
      convert_decimals rs' ["operation_state", "plan_id"] = some rs') ∧
    (∀ rs rs' : List Record, format_locations rs = some rs' →
      format_locations rs' = some rs' ∨ format_locations rs' = none) :=
  ⟨fun _ _ h => omap_idem (fun _ _ hab => stringifyOne_idem hab) h,
   fun _ _ h => omap_idem (fun _ _ hab => convertOne_idem hab) h,
   fun _ _ h => omap_idem_or (fun _ _ hab => formatOne_idem_or hab) h⟩

/-- Witness for amended C4: stringifying twice, coercing twice and
re-formatting a collection with no formattable location all behave as the
amended claim states. -/
theorem normalizer_idempotence_amended_witness :
    stringify_signal_ids [[("signal_id", Value.vstr "101")]] "signal_id" =
      some [[("signal_id", Value.vstr "101")]] ∧
    convert_decimals [[("operation_state", Value.vint 2), ("plan_id", Value.vint 0)]]
      ["operation_state", "plan_id"] =
      some [[("operation_state", Value.vint 2), ("plan_id", Value.vint 0)]] ∧
    (format_locations [[("location", Value.vobj [])]] =
        some [[("location", Value.vobj [])]] ∨
      format_locations [[("location", Value.vobj [])]] = none) :=
  ⟨normalizer_idempotence_amended.1 [[("signal_id", Value.vint 101)]]
      [[("signal_id", Value.vstr "101")]] rfl,
   normalizer_idempotence_amended.2.1
      [[("operation_state", Value.vdec 20 1), ("plan_id", Value.vdec 0 0)]]
      [[("operation_state", Value.vint 2), ("plan_id", Value.vint 0)]] rfl,
   normalizer_idempotence_amended.2.2 [[("location", Value.vobj [])]]
      [[("location", Value.vobj [])]] rfl⟩

/-- Counterexample to C4 as stated: a collection with a complete coordinate
pair.  One application of format_locations replaces the location by the
string "(-97.7, 30.1)"; applying the pass to that output raises
AttributeError (modelled none) rather than returning the output again, so
applying pass 6 twice is not the same as applying it once. -/
theorem normalizer_idempotence_cex :
    format_locations [[("location", Value.vobj
        [("latitude", Value.vstr "30.1"), ("longitude", Value.vstr "-97.7")])]] =
      some [[("location", Value.vstr "(-97.7, 30.1)")]] ∧
    format_locations [[("location", Value.vstr "(-97.7, 30.1)")]] = none ∧
    (format_locations [[("location", Value.vobj
        [("latitude", Value.vstr "30.1"), ("longitude", Value.vstr "-97.7")])]]).bind
        format_locations ≠
      format_locations [[("location", Value.vobj
        [("latitude", Value.vstr "30.1"), ("longitude", Value.vstr "-97.7")])]] :=
  ⟨rfl, rfl, fun h => Option.noConfusion h⟩

/-!  Claim C10: frame conditions of the six passes. -/

theorem omap_frame {f : Record → Option Record} {P : Record → Record → Prop}
    (hf : ∀ r r', f r = some r' → P r r') {rs rs' : List Record}
    (h : omap f rs = some rs') : rs'.length = rs.length ∧ List.Forall₂ P rs rs' :=
  ⟨omap_length h, List.Forall₂.imp (fun a b hab => hf a b hab) (omap_forall₂ h)⟩

theorem forall₂_map_self {α : Type} {P : α → α → Prop} {g : α → α}
    (hg : ∀ a, P a (g a)) : ∀ l : List α, List.Forall₂ P l (l.map g)
  | [] => List.Forall₂.nil
  | a :: t => List.Forall₂.cons (hg a) (forall₂_map_self hg t)

theorem stringifyOne_frame {key : String} {r r' : Record}
    (h : stringifyOne key r = some r') :
    ∀ k, k ≠ key → getVal r' k = getVal r k := by
  unfold stringifyOne at h
  cases hv : getVal r key with
  | none => rw [hv] at h; exact absurd h (by simp)
  | some v =>
    rw [hv] at h
    intro k hk
    rw [← Option.some.inj h, getVal_setVal_ne _ _ hk]

theorem mergeOne_frame {assets : List Record} {r r' : Record}
    (h : mergeOne assets r = some r') :
    ∀ k, k ∉ asset_fields → getVal r' k = getVal r k := by
  unfold mergeOne at h
  cases hma : matchAssets assets r with
  | none => rw [hma] at h; exact absurd h (by simp)
  | some matched =>
    rw [hma] at h
    cases matched with
    | nil =>
      intro k _
      rw [← Option.some.inj h]
    | cons m rest =>
      intro k hk
      rw [← Option.some.inj h, getVal_foldl_setVal_notMem _ _ _ hk]

theorem localizeOne_frame {key : String} {r r' : Record}
    (h : localizeOne key r = some r') :
    ∀ k, k ≠ key → getVal r' k = getVal r k := by
  unfold localizeOne at h
  cases hv : getVal r key with
  | none =>
    rw [hv] at h
    exact absurd (show (none : Option Record) = some r' from h) (by simp)
  | some v =>
    rw [hv] at h
    cases v with
    | vdt d =>
      intro k hk
      rw [← Option.some.inj h, getVal_setVal_ne _ _ hk]
    | vstr x => exact absurd (show (none : Option Record) = some r' from h) (by simp)
    | vint x => exact absurd (show (none : Option Record) = some r' from h) (by simp)
    | vdec x y => exact absurd (show (none : Option Record) = some r' from h) (by simp)
    | vbool x => exact absurd (show (none : Option Record) = some r' from h) (by simp)
    | vnone => exact absurd (show (none : Option Record) = some r' from h) (by simp)
    | vobj x => exact absurd (show (none : Option Record) = some r' from h) (by simp)

theorem convertOne_frame : ∀ {keys : List String} {r r' : Record},
    convertOne keys r = some r' → ∀ k, k ∉ keys → getVal r' k = getVal r k
  | [], r, r', h => by
    intro k _
    rw [← Option.some.inj h]
  | key :: rest, r, r', h => by
    replace h : ((getVal r key).bind fun v => (pyInt v).bind fun n =>
        convertOne rest (setVal r key (Value.vint n))) = some r' := h
    obtain ⟨v, hv, h⟩ := Option.bind_eq_some.mp h
    obtain ⟨n, hn, h⟩ := Option.bind_eq_some.mp h
    intro k hk
    simp only [List.mem_cons, not_or] at hk
    rw [convertOne_frame h k hk.2, getVal_setVal_ne _ _ hk.1]

theorem formatOne_frame {r r' : Record} (h : formatOne r = some r') :
    ∀ k, k ≠ "location" → getVal r' k = getVal r k := by
  obtain ⟨h1, h2, h3⟩ := formatOne_spec h
  cases hloc : getVal r "location" with
  | none =>
    rw [h3 hloc]
    exact fun _ _ => rfl
  | some v =>
    cases v with
    | vobj loc0 =>
      cases htr : (truthy ((getVal loc0 "latitude").getD Value.vnone) &&
          truthy ((getVal loc0 "longitude").getD Value.vnone)) with
      | true =>
        intro k hk
        rw [h1 loc0 hloc htr, getVal_setVal_ne _ _ hk]
      | false =>
        rw [h2 loc0 hloc htr]
        exact fun _ _ => rfl
    | vstr x =>
      unfold formatOne at h
      rw [hloc] at h
      exact absurd (show (none : Option Record) = some r' from h) (by simp)
    | vint x =>
      unfold formatOne at h
      rw [hloc] at h
      exact absurd (show (none : Option Record) = some r' from h) (by simp)
    | vdec x y =>
      unfold formatOne at h
      rw [hloc] at h
      exact absurd (show (none : Option Record) = some r' from h) (by simp)
    | vbool x =>
      unfold formatOne at h
      rw [hloc] at h
      exact absurd (show (none : Option Record) = some r' from h) (by simp)
    | vnone =>
      unfold formatOne at h
      rw [hloc] at h
      exact absurd (show (none : Option Record) = some r' from h) (by simp)
    | vdt x =>
      unfold formatOne at h
      rw [hloc] at h
      exact absurd (show (none : Option Record) = some r' from h) (by simp)

/-- C10.  Every pass preserves the number and order of records (the output
relates to the input pointwise), and each one reads or writes only its
designated fields: stringification only signal_id, the asset merge only the
four asset fields, localization only operation_state_datetime, stamping
only processed_datetime, coercion only operation_state and plan_id, and
location formatting only location; every other field of every record keeps
its value. -/
theorem passes_frame_conditions :
    (∀ rs rs' : List Record, stringify_signal_ids rs "signal_id" = some rs' →
      rs'.length = rs.length ∧
      List.Forall₂ (fun r r' => ∀ k, k ≠ "signal_id" → getVal r' k = getVal r k) rs rs') ∧
    (∀ rs assets rs' : List Record, merge_signal_asset_data rs assets = some rs' →
      rs'.length = rs.length ∧
      List.Forall₂ (fun r r' => ∀ k, k ∉ asset_fields → getVal r' k = getVal r k) rs rs') ∧
    (∀ rs rs' : List Record,
      localize_operation_state_datetime rs "operation_state_datetime" = some rs' →
      rs'.length = rs.length ∧
      List.Forall₂ (fun r r' => ∀ k, k ≠ "operation_state_datetime" →
        getVal r' k = getVal r k) rs rs') ∧
    (∀ (rs : List Record) (now : DateTime),
      (set_processed_datetime rs now).length = rs.length ∧
      List.Forall₂ (fun r r' => ∀ k, k ≠ "processed_datetime" →
        getVal r' k = getVal r k) rs (set_processed_datetime rs now)) ∧
    (∀ rs rs' : List Record, convert_decimals rs ["operation_state", "plan_id"] = some rs' →
      rs'.length = rs.length ∧
      List.Forall₂ (fun r r' => ∀ k, k ≠ "operation_state" → k ≠ "plan_id" →
        getVal r' k = getVal r k) rs rs') ∧
    (∀ rs rs' : List Record, format_locations rs = some rs' →
      rs'.length = rs.length ∧
      List.Forall₂ (fun r r' => ∀ k, k ≠ "location" → getVal r' k = getVal r k) rs rs') := by
  refine ⟨?_, ?_, ?_, ?_, ?_, ?_⟩
  · intro rs rs' h
    refine omap_frame ?_ (show omap (stringifyOne "signal_id") rs = some rs' from h)
    intro r r' hr
    exact stringifyOne_frame hr
  · intro rs assets rs' h
    refine omap_frame ?_ (show omap (mergeOne assets) rs = some rs' from h)
    intro r r' hr
    exact mergeOne_frame hr
  · intro rs rs' h
    refine omap_frame ?_
      (show omap (localizeOne "operation_state_datetime") rs = some rs' from h)
    intro r r' hr
    exact localizeOne_frame hr
  · intro rs now
    refine ⟨List.length_map _ _, forall₂_map_self ?_ rs⟩
    intro r k hk
    exact getVal_setVal_ne _ _ hk
  · intro rs rs' h
    refine omap_frame ?_
      (show omap (convertOne ["operation_state", "plan_id"]) rs = some rs' from h)
    intro r r' hr k hk1 hk2
    exact convertOne_frame hr k (by simp [hk1, hk2])
  · intro rs rs' h
    refine omap_frame ?_ (show omap formatOne rs = some rs' from h)
    intro r r' hr
    exact formatOne_frame hr

/-- Witness for C10: each pass applied to a small concrete collection
satisfies its length and frame condition. -/
theorem passes_frame_conditions_witness :
    ([[("signal_id", Value.vstr "101"), ("plan_id", Value.vint 5)]].length =
        [[("signal_id", Value.vint 101), ("plan_id", Value.vint 5)]].length ∧
      List.Forall₂ (fun r r' => ∀ k, k ≠ "signal_id" → getVal r' k = getVal r k)
        [[("signal_id", Value.vint 101), ("plan_id", Value.vint 5)]]
        [[("signal_id", Value.vstr "101"), ("plan_id", Value.vint 5)]]) ∧
    ([[("signal_id", Value.vstr "101")]].length = [[("signal_id", Value.vstr "101")]].length ∧
      List.Forall₂ (fun r r' => ∀ k, k ∉ asset_fields → getVal r' k = getVal r k)
        [[("signal_id", Value.vstr "101")]] [[("signal_id", Value.vstr "101")]]) ∧
    ([[("operation_state_datetime", Value.vstr "2024-01-15T08:30:00")]].length =
        [[("operation_state_datetime", Value.vdt ⟨2024, 1, 15, 8, 30, 0⟩)]].length ∧
      List.Forall₂ (fun r r' => ∀ k, k ≠ "operation_state_datetime" →
          getVal r' k = getVal r k)
        [[("operation_state_datetime", Value.vdt ⟨2024, 1, 15, 8, 30, 0⟩)]]
        [[("operation_state_datetime", Value.vstr "2024-01-15T08:30:00")]]) ∧
    ((set_processed_datetime [[("signal_id", Value.vstr "101")]] exampleNow).length =
        [[("signal_id", Value.vstr "101")]].length ∧
      List.Forall₂ (fun r r' => ∀ k, k ≠ "processed_datetime" →
          getVal r' k = getVal r k)
        [[("signal_id", Value.vstr "101")]]
        (set_processed_datetime [[("signal_id", Value.vstr "101")]] exampleNow)) ∧
    ([[("operation_state", Value.vint 1), ("plan_id", Value.vint 2)]].length =
        [[("operation_state", Value.vint 1), ("plan_id", Value.vint 2)]].length ∧
      List.Forall₂ (fun r r' => ∀ k, k ≠ "operation_state" → k ≠ "plan_id" →
          getVal r' k = getVal r k)
        [[("operation_state", Value.vint 1), ("plan_id", Value.vint 2)]]
        [[("operation_state", Value.vint 1), ("plan_id", Value.vint 2)]]) ∧
    ([[("location", Value.vobj [])]].length = [[("location", Value.vobj [])]].length ∧
      List.Forall₂ (fun r r' => ∀ k, k ≠ "location" → getVal r' k = getVal r k)
        [[("location", Value.vobj [])]] [[("location", Value.vobj [])]]) :=
  ⟨passes_frame_conditions.1
      [[("signal_id", Value.vint 101), ("plan_id", Value.vint 5)]]
      [[("signal_id", Value.vstr "101"), ("plan_id", Value.vint 5)]] rfl,
   passes_frame_conditions.2.1
      [[("signal_id", Value.vstr "101")]] [] [[("signal_id", Value.vstr "101")]] rfl,
   passes_frame_conditions.2.2.1
      [[("operation_state_datetime", Value.vdt ⟨2024, 1, 15, 8, 30, 0⟩)]]
      [[("operation_state_datetime", Value.vstr "2024-01-15T08:30:00")]] rfl,
   passes_frame_conditions.2.2.2.1 [[("signal_id", Value.vstr "101")]] exampleNow,
   passes_frame_conditions.2.2.2.2.1
      [[("operation_state", Value.vint 1), ("plan_id", Value.vint 2)]]
      [[("operation_state", Value.vint 1), ("plan_id", Value.vint 2)]] rfl,
   passes_frame_conditions.2.2.2.2.2
      [[("location", Value.vobj [])]] [[("location", Value.vobj [])]] rfl⟩

end SignalStatusPublisher
